import Mathlib

/-!
# Verification of the RAG pipeline (`src/rag_system.py`, `src/index_documents.py`)

Shallow embedding of the retrieval-augmented-generation pipeline:

* `DocumentProcessor.chunk_text` — the overlapping, sentence-boundary-aware
  chunker (embedded as a fuel-indexed loop `chunkLoop`, since the Python
  `while` loop does not terminate for every input);
* `RAGSystem.search_documents`, `RAGSystem.generate_response`,
  `RAGSystem.chat` — the retriever / answer generator / orchestrator, with
  the external Azure clients modelled as `Except`-valued oracles passed in
  as parameters;
* `process_documents` from `index_documents.py` — the indexing pipeline's
  id / chunk_id assignment loop.

Python strings are modelled as `List Char`; Python ints as `Int`.  The float
test `last_period > chunk_size * 0.7` in `chunk_text` is modelled exactly:
`0.7` is the binary64 double `3152519739159347 / 2^52`, the products
`float(chunk_size)` and `float(chunk_size) * 0.7` are rounded to 53
significant bits with round-to-nearest, ties-to-even (`fl64mk` below, a pair
`(M, e)` denoting the exact value `M * 2^e`), and the int-vs-float
comparison is exact, as in CPython.  The only divergence from CPython is
that the model never raises `OverflowError`, which the real `c * 0.7` does
once `|c|` is on the order of `2^1024`; every theorem below stays at
`|chunk_size| ≤ 2^50`, far beneath that.
-/

set_option maxRecDepth 10000

namespace RAG

/-! ## Python string primitives -/

/-- Python `str.strip` whitespace set (`str.isspace`): the ASCII whitespace
`\t \n \v \f \r` and space, the separator controls U+001C–U+001F, U+0085,
U+00A0, U+1680, U+2000–U+200A, U+2028, U+2029, U+202F, U+205F, U+3000. -/
def pyIsSpace (ch : Char) : Bool :=
  ch = ' ' || ch = '\t' || ch = '\n' || ch = '\x0b' || ch = '\x0c' || ch = '\r' ||
  ch = '\x1c' || ch = '\x1d' || ch = '\x1e' || ch = '\x1f' || ch = '\x85' ||
  ch = '\xa0' || ch = '\u1680' || ('\u2000' ≤ ch && ch ≤ '\u200a') ||
  ch = '\u2028' || ch = '\u2029' || ch = '\u202f' || ch = '\u205f' || ch = '\u3000'

/-- Python `str.strip()`: drop leading and trailing whitespace. -/
def pyStrip (s : List Char) : List Char :=
  ((s.dropWhile pyIsSpace).reverse.dropWhile pyIsSpace).reverse

/-- Clamp a Python slice bound to an actual list index: negative indices
count from the end of the string, and out-of-range bounds are clamped. -/
def pySliceIdx (L : Nat) (i : Int) : Nat :=
  if i < 0 then ((L : Int) + i).toNat else min i.toNat L

/-- Python slice `s[a:b]` (step 1), including negative-index semantics. -/
def pySlice (s : List Char) (a b : Int) : List Char :=
  (s.take (pySliceIdx s.length b)).drop (pySliceIdx s.length a)

/-- Python `s.rfind(ch)`: index of the last occurrence of `ch`, `-1` if absent. -/
def pyRfind : List Char → Char → Int
  | [], _ => -1
  | a :: s, ch =>
    let r := pyRfind s ch
    if 0 ≤ r then r + 1
    else if a = ch then 0 else -1

theorem pyRfind_ge_of_getElem? (s : List Char) (ch : Char) :
    ∀ i : Nat, s[i]? = some ch → (i : Int) ≤ pyRfind s ch := by
  induction s with
  | nil => intro i h; simp at h
  | cons a s ih =>
    intro i h
    cases i with
    | zero =>
      simp only [List.getElem?_cons_zero, Option.some.injEq] at h
      subst h
      simp only [pyRfind]
      split
      · omega
      · simp
    | succ n =>
      simp only [List.getElem?_cons_succ] at h
      have hn := ih n h
      simp only [pyRfind]
      split
      · omega
      · omega

theorem pyRfind_getElem? (s : List Char) (ch : Char) (h : 0 ≤ pyRfind s ch) :
    s[(pyRfind s ch).toNat]? = some ch := by
  induction s with
  | nil => simp [pyRfind] at h
  | cons a s ih =>
    simp only [pyRfind] at h ⊢
    split
    case isTrue hr =>
      have hrec := ih hr
      have : ((pyRfind s ch) + 1).toNat = (pyRfind s ch).toNat + 1 := by omega
      rw [this]
      simpa using hrec
    case isFalse hr =>
      split
      case isTrue ha => simp [ha]
      case isFalse ha =>
        exfalso
        rw [if_neg hr, if_neg ha] at h
        omega

theorem pyRfind_maximal (s : List Char) (ch : Char) (r : Nat)
    (h : pyRfind s ch < (r : Int)) : s[r]? ≠ some ch := by
  intro hmem
  exact absurd (pyRfind_ge_of_getElem? s ch r hmem) (by omega)

/-! ## The chunker (`DocumentProcessor.chunk_text`, rag_system.py lines 90–112)

The Python loop is

```
while start < len(text):
    end = start + chunk_size
    chunk = text[start:end]
    if end < len(text):
        last_period = chunk.rfind('.')
        if last_period > chunk_size * 0.7:
            end = start + last_period + 1
            chunk = text[start:end]
    chunks.append(chunk.strip())
    start = end - overlap
    if start >= len(text):
        break
```

`windowEnd` is the final value of `end` for one iteration, `chunkStep` the
emitted `(start, end, chunk.strip())` triple together with the next cursor,
and `chunkLoop` the fuel-indexed loop (`none` = did not finish within the
given number of iterations).  The float test `last_period > chunk_size * 0.7`
is computed exactly as CPython does (see the header): `chunk_size` is
rounded to a binary64 double, multiplied by the double `0.7`, the product is
rounded again, and an exact int-vs-float comparison decides the snap. -/

/-- Fuel-indexed floor of the base-2 logarithm; the fuel only needs to be at
least the bit length, so `log2Aux n n` is exact for every `n ≥ 1`. -/
def log2Aux : Nat → Nat → Nat
  | 0, _ => 0
  | fuel + 1, n => if n ≤ 1 then 0 else log2Aux fuel (n / 2) + 1

/-- Floor of the base-2 logarithm (0 for 0). -/
def bitLog2 (n : Nat) : Nat := log2Aux n n

/-- Mantissa of the binary64 double nearest to `0.7`: the exact value of that
double is `3152519739159347 / 2^52`. -/
def float07Num : Int := 3152519739159347

/-- Round the rational `P / 2^s` to the nearest integer, ties to even. -/
def rne (P : Int) (s : Nat) : Int :=
  let q := P / 2 ^ s
  let r := P % 2 ^ s
  if 2 * r < 2 ^ s then q
  else if 2 ^ s < 2 * r then q + 1
  else if q % 2 = 0 then q else q + 1

/-- Round the positive rational `P / 2^t` to 53 significant bits
(round-to-nearest, ties-to-even): the result `(M, e)` denotes the binary64
value `M * 2^e`. -/
def fl64mk (P : Int) (t : Nat) : Int × Int :=
  let L := bitLog2 P.natAbs
  if L ≤ 52 then (P * 2 ^ (52 - L), (L : Int) - t - 52)
  else (rne P (L - 52), (L : Int) - t - 52)

/-- The binary64 result of Python `c * 0.7` for a positive int `c`: convert
`c` to a double (`fl64mk c 0`), multiply its mantissa by the mantissa of
`0.7`, and round the product to 53 bits again. -/
def pyMul07 (c : Int) : Int × Int :=
  let f := fl64mk c 0
  if f.2 ≤ 52 then fl64mk (f.1 * float07Num) (52 - f.2).toNat
  else fl64mk (f.1 * float07Num * 2 ^ (f.2 - 52).toNat) 0

/-- Exact comparison `p.1 * 2^p.2 < lp` of a binary64 value with an int. -/
def intGtF64 (lp : Int) (p : Int × Int) : Bool :=
  if 0 ≤ p.2 then decide (p.1 * 2 ^ p.2.toNat < lp)
  else decide (p.1 < lp * 2 ^ (-p.2).toNat)

/-- The Python test `last_period > chunk_size * 0.7`: an exact comparison of
the int `lp` with the binary64 value of `c * 0.7` (negative `c` mirrors the
positive case, since binary64 rounding is symmetric).  Faithful to CPython
whenever `c * 0.7` does not overflow, i.e. for `|c|` below roughly `2^1024`. -/
def pyGtMul07 (lp c : Int) : Bool :=
  if c = 0 then decide (0 < lp)
  else if c < 0 then
    let p := pyMul07 (-c)
    intGtF64 lp (-p.1, p.2)
  else intGtF64 lp (pyMul07 c)

/-- Final `end` of one loop iteration: raw window end `start + chunk_size`,
snapped back to just after the last period when that period lies beyond the
binary64 value of `0.7 * chunk_size` and the raw end is strictly inside the
text. -/
def windowEnd (text : List Char) (c start : Int) : Int :=
  let end0 := start + c
  if end0 < (text.length : Int) then
    let lp := pyRfind (pySlice text start end0) '.'
    if pyGtMul07 lp c then start + lp + 1 else end0
  else end0

/-- One iteration of the chunking loop: the emitted `(start, end, stripped
chunk)` triple and the next cursor `end - overlap`. -/
def chunkStep (text : List Char) (c o start : Int) :
    (Int × Int × List Char) × Int :=
  let e := windowEnd text c start
  ((start, e, pyStrip (pySlice text start e)), e - o)

/-- The chunking loop with explicit fuel; `none` means the loop did not
finish within `fuel` iterations (each entry of the loop body, and the final
failed `while` test, consume one unit of fuel). -/
def chunkLoop (text : List Char) (c o : Int) : Int → Nat → Option (List (Int × Int × List Char))
  | _, 0 => none
  | start, fuel + 1 =>
    if start < (text.length : Int) then
      (chunkLoop text c o (chunkStep text c o start).2 fuel).map
        (fun rest => (chunkStep text c o start).1 :: rest)
    else
      some []

/-- `chunk_text(text, chunk_size, overlap)`: the list of stripped chunks,
when the loop finishes within `fuel` iterations. -/
def chunk_text (fuel : Nat) (text : List Char) (c o : Int) : Option (List (List Char)) :=
  (chunkLoop text c o 0 fuel).map (List.map (fun t => t.2.2))

/-- The untrimmed `[start, end)` spans chosen by `chunk_text`. -/
def chunkSpans (fuel : Nat) (text : List Char) (c o : Int) : Option (List (Int × Int)) :=
  (chunkLoop text c o 0 fuel).map (List.map (fun t => (t.1, t.2.1)))

/-- `chunk_text` terminates on the given input: some amount of fuel makes
the loop finish. -/
def chunkTerminates (text : List Char) (c o : Int) : Prop :=
  ∃ fuel, (chunkLoop text c o 0 fuel).isSome

/-! ## The RAG system (`rag_system.py` lines 114–243)

The external Azure clients are modelled as oracles passed in as
parameters: the embedding call as an `Except`-valued outcome, the index
query and the chat completion as `Except`-valued functions.  A Python
exception raised by a provider call is an `Except.error` outcome; document
relevance scores are provider floats that the code only copies around and
never computes with, so they are modelled as exact rationals. -/

/-- Raw document as returned by the index query: `doc.get("title", "")` and
`doc.get("source", "")` mean the two fields may be absent. -/
structure RawDoc where
  id : String
  content : List Char
  title : Option String
  source : Option String
  score : ℚ
deriving DecidableEq

/-- Search result dictionary built by `search_documents` (lines 155–164). -/
structure SearchResult where
  id : String
  content : List Char
  title : String
  source : String
  score : ℚ
deriving DecidableEq

/-- Entry of the `sources` list of the chat response (lines 230–237). -/
structure SourceEntry where
  title : String
  source : String
  score : ℚ
deriving DecidableEq

/-- The chat response dictionary: exactly the keys `answer`, `sources`,
`context_used` (lines 220–224 and 239–243). -/
structure ChatResponse where
  answer : String
  sources : List SourceEntry
  context_used : List (List Char)
deriving DecidableEq

/-- One chat message `{"role": ..., "content": ...}`. -/
structure Message where
  role : String
  content : String
deriving DecidableEq

/-- Dictionary comprehension of `search_documents` (lines 155–164). -/
def toSearchResult (d : RawDoc) : SearchResult :=
  ⟨d.id, d.content, d.title.getD "", d.source.getD "", d.score⟩

/-- `RAGSystem.search_documents(query, top_k)` (lines 131–167): resolve
`top_k` against `config.max_search_results`, embed the query, run the index
query, and map the results; any `Except.error` from the embedding call or
the index query is swallowed by the `except` clause, which returns `[]`. -/
def search_documents (top_k : Option Nat) (maxSearchResults : Nat)
    (embed : Except String (List ℚ))
    (query : Nat → List ℚ → Except String (List RawDoc)) : List SearchResult :=
  let k := top_k.getD maxSearchResults
  match embed with
  | .error _ => []
  | .ok v =>
    match query k v with
    | .error _ => []
    | .ok docs => docs.map toSearchResult

/-- Context block of `generate_response` (lines 173–176). -/
def mkContext (contextDocs : List SearchResult) : String :=
  String.intercalate "\n\n"
    (contextDocs.map (fun d => "Document: " ++ d.title ++ "\nContent: " ++ String.mk d.content))

/-- The fixed system message of `generate_response` (lines 179–184). -/
def systemMessage : String :=
  "\nYou are a helpful AI assistant that answers questions based on the provided documentation context.\nUse only the information from the context to answer questions.\nIf the context doesn\x27t contain enough information to answer the question, say so clearly.\nProvide clear, concise answers and cite the relevant document titles when possible.\n"

/-- The user message of `generate_response` (lines 187–194). -/
def userMessage (question : String) (contextDocs : List SearchResult) : String :=
  "\nContext:\n" ++ mkContext contextDocs ++ "\n\nQuestion: " ++ question ++
    "\n\nPlease answer the question based on the provided context.\n"

/-- The message list passed to the completion call (lines 199–202). -/
def ragMessages (question : String) (contextDocs : List SearchResult) : List Message :=
  [⟨"system", systemMessage⟩, ⟨"user", userMessage question contextDocs⟩]

/-- The fixed apology returned when the completion call raises (line 210). -/
def apologyAnswer : String :=
  "I\x27m sorry, I encountered an error while generating a response."

/-- `RAGSystem.generate_response(question, context_docs)` (lines 169–210):
build the grounded prompt and call the completion provider; on provider
failure return the fixed apology string instead of propagating. -/
def generate_response (question : String) (contextDocs : List SearchResult)
    (complete : List Message → Except String String) : String :=
  match complete (ragMessages question contextDocs) with
  | .ok answer => answer
  | .error _ => apologyAnswer

/-- The fixed no-results answer of `chat` (line 221). -/
def noInfoAnswer : String :=
  "I couldn\x27t find any relevant information in the documentation to answer your question."

/-- The ellipsis marker appended to each context preview (line 242). -/
def ellipsis : List Char := ['.', '.', '.']

/-- `RAGSystem.chat(question)` (lines 212–243): search with `top_k = None`;
on an empty result list return the fixed no-results response; otherwise call
the answer generator and assemble `answer`, `sources` (title/source/score
per result, retrieval order) and `context_used` (`doc["content"][:200] +
"..."` per result, retrieval order). -/
def chat (maxSearchResults : Nat) (embed : Except String (List ℚ))
    (query : Nat → List ℚ → Except String (List RawDoc))
    (complete : List Message → Except String String) (question : String) : ChatResponse :=
  let relevant_docs := search_documents none maxSearchResults embed query
  if relevant_docs.isEmpty then
    ⟨noInfoAnswer, [], []⟩
  else
    ⟨generate_response question relevant_docs complete,
     relevant_docs.map (fun d => ⟨d.title, d.source, d.score⟩),
     relevant_docs.map (fun d => d.content.take 200 ++ ellipsis)⟩

/-! ## The indexing pipeline (`index_documents.py` lines 119–177)

`process_documents` reads each file (`read_text_file` returns `""` on a
read failure, and empty content makes the file be skipped), chunks it, and
embeds each chunk; a chunk whose embedding call raises is skipped.  The
chunker is passed in as a function parameter (the source calls
`document_processor.chunk_text(content, chunk_size, chunk_overlap)`, whose
loop is studied separately above and does not finish for every parameter
choice), and the per-chunk embedding call as an `Except`-valued oracle. -/

/-- One input file, after `read_text_file`: `title` is the filename stem,
`source` the full path, `content` the text read (`[]` when the read failed
or the file was empty). -/
structure FileInput where
  title : String
  source : String
  content : List Char
deriving DecidableEq

/-- Document dictionary built for the index (lines 159–166). -/
structure IndexedDoc where
  id : String
  title : String
  content : List Char
  source : String
  chunk_id : Nat
  contentVector : List ℚ
deriving DecidableEq

/-- Global document id: `f"doc_{doc_id}"` (line 160). -/
def mkDocId (n : Nat) : String := "doc_" ++ toString n

/-- Inner loop of `process_documents` (lines 153–173): `for chunk_id, chunk
in enumerate(chunks)`, embed the chunk; on success emit the document and
advance the global `doc_id`; on an embedding error skip the chunk (the
`enumerate` counter advances regardless). Returns the emitted documents and
the final `doc_id`. -/
def processChunks (embed : List Char → Except String (List ℚ))
    (title source : String) : Nat → Nat → List (List Char) → List IndexedDoc × Nat
  | docId, _, [] => ([], docId)
  | docId, chunkId, ch :: rest =>
    match embed ch with
    | .ok vec =>
      let d : IndexedDoc := ⟨mkDocId docId, title, ch, source, chunkId, vec⟩
      let r := processChunks embed title source (docId + 1) (chunkId + 1) rest
      (d :: r.1, r.2)
    | .error _ => processChunks embed title source docId (chunkId + 1) rest

/-- Outer loop of `process_documents` (lines 138–175): skip files with
empty content, chunk the rest, and run the inner loop with `chunk_id`
restarting at 0 while the global `doc_id` carries across files. -/
def processFiles (chunkFn : List Char → List (List Char))
    (embed : List Char → Except String (List ℚ)) : Nat → List FileInput → List IndexedDoc
  | _, [] => []
  | docId, f :: rest =>
    if f.content.isEmpty then processFiles chunkFn embed docId rest
    else
      let r := processChunks embed f.title f.source docId 0 (chunkFn f.content)
      r.1 ++ processFiles chunkFn embed r.2 rest

/-- `process_documents(document_processor, file_paths, ...)` (lines
128–177): the whole run, starting from `doc_id = 0`. -/
def process_documents (chunkFn : List Char → List (List Char))
    (embed : List Char → Except String (List ℚ)) (files : List FileInput) : List IndexedDoc :=
  processFiles chunkFn embed 0 files

/-! ## Orchestrator theorems -/

/-- C1: if `search_documents` returns the empty list (genuinely empty search
or absorbed failure), `chat` returns the fixed no-results answer with empty
`sources` and empty `context_used`.  The completion oracle `complete` is
universally quantified and absent from the right-hand side, so the answer
generator is not consulted on this path. -/
theorem chat_empty_retrieval (maxSearchResults : Nat) (embed : Except String (List ℚ))
    (query : Nat → List ℚ → Except String (List RawDoc))
    (complete : List Message → Except String String) (question : String)
    (h : search_documents none maxSearchResults embed query = []) :
    chat maxSearchResults embed query complete question =
      ⟨noInfoAnswer, [], []⟩ := by
  simp only [chat, h]
  rfl

/-- Witness for C1 at a concrete failing retrieval. -/
theorem chat_empty_retrieval_witness :
    chat 5 (Except.error "auth failure") (fun _ _ => Except.error "down")
        (fun _ => Except.ok "hi") "q" = ⟨noInfoAnswer, [], []⟩ :=
  chat_empty_retrieval 5 (Except.error "auth failure") (fun _ _ => Except.error "down")
    (fun _ => Except.ok "hi") "q" rfl

/-- C2: for a non-empty retrieval result list `R`, `chat`'s `sources[i]` is
the `{title, source, score}` projection of `R[i]` and `context_used[i]` is
the first 200 characters of `R[i]`'s content followed by `"..."`, both in
exactly the input order (no re-sorting). -/
theorem chat_preserves_order (maxSearchResults : Nat) (embed : Except String (List ℚ))
    (query : Nat → List ℚ → Except String (List RawDoc))
    (complete : List Message → Except String String) (question : String)
    (R : List SearchResult)
    (hR : search_documents none maxSearchResults embed query = R) (hne : R ≠ [])
    (i : Nat) (hi : i < R.length) :
    (chat maxSearchResults embed query complete question).sources[i]? =
        some ⟨R[i].title, R[i].source, R[i].score⟩ ∧
    (chat maxSearchResults embed query complete question).context_used[i]? =
        some (R[i].content.take 200 ++ ellipsis) := by
  subst hR
  simp only [chat]
  rw [if_neg (by simpa [List.isEmpty_iff] using hne)]
  constructor
  · simp [List.getElem?_map, List.getElem?_eq_getElem hi]
  · simp [List.getElem?_map, List.getElem?_eq_getElem hi]

/-- Witness for C2 with two concrete retrieved documents, checked at index 1. -/
theorem chat_preserves_order_witness :
    (chat 5 (Except.ok [(1 : ℚ)])
        (fun _ _ => Except.ok
          [⟨"doc_0", ['h', 'i'], some "T0", some "S0", 9⟩,
           ⟨"doc_1", ['y', 'o'], none, some "S1", 3⟩])
        (fun _ => Except.ok "ans") "q").sources[1]? = some ⟨"", "S1", 3⟩ ∧
    (chat 5 (Except.ok [(1 : ℚ)])
        (fun _ _ => Except.ok
          [⟨"doc_0", ['h', 'i'], some "T0", some "S0", 9⟩,
           ⟨"doc_1", ['y', 'o'], none, some "S1", 3⟩])
        (fun _ => Except.ok "ans") "q").context_used[1]? =
      some (['y', 'o'].take 200 ++ ellipsis) :=
  chat_preserves_order 5 (Except.ok [(1 : ℚ)])
    (fun _ _ => Except.ok
      [⟨"doc_0", ['h', 'i'], some "T0", some "S0", 9⟩,
       ⟨"doc_1", ['y', 'o'], none, some "S1", 3⟩])
    (fun _ => Except.ok "ans") "q"
    [⟨"doc_0", ['h', 'i'], "T0", "S0", 9⟩, ⟨"doc_1", ['y', 'o'], "", "S1", 3⟩]
    rfl (by simp) 1 (by simp)

/-- C5: any failure of the embedding call or of the index query inside
`search_documents` is swallowed: the function returns the empty list
instead of propagating the error. -/
theorem search_documents_swallows_errors (top_k : Option Nat) (maxSearchResults : Nat)
    (embed : Except String (List ℚ))
    (query : Nat → List ℚ → Except String (List RawDoc))
    (h : (∃ msg, embed = Except.error msg) ∨
         (∃ v msg, embed = Except.ok v ∧
            query (top_k.getD maxSearchResults) v = Except.error msg)) :
    search_documents top_k maxSearchResults embed query = [] := by
  rcases h with ⟨msg, rfl⟩ | ⟨v, msg, rfl, hq⟩
  · rfl
  · simp only [search_documents, hq]

/-- Witness for C5: a failing embedding call yields the empty result list. -/
theorem search_documents_swallows_errors_witness :
    search_documents (some 3) 5 (Except.error "rate limited")
      (fun _ _ => Except.ok []) = [] :=
  search_documents_swallows_errors (some 3) 5 (Except.error "rate limited")
    (fun _ _ => Except.ok []) (Or.inl ⟨"rate limited", rfl⟩)

/-- C6: if the completion provider call raises inside `generate_response`,
the error is not propagated: the function returns exactly the fixed apology
string. -/
theorem generate_response_apology (question : String) (contextDocs : List SearchResult)
    (complete : List Message → Except String String) (msg : String)
    (h : complete (ragMessages question contextDocs) = Except.error msg) :
    generate_response question contextDocs complete = apologyAnswer := by
  simp only [generate_response, h]

/-- Witness for C6 at a concrete failing completion call. -/
theorem generate_response_apology_witness :
    generate_response "q" [] (fun _ => Except.error "quota") = apologyAnswer :=
  generate_response_apology "q" [] (fun _ => Except.error "quota") "quota" rfl

/-- C10: the chat response always carries exactly the three fields `answer`,
`sources`, `context_used` (the `ChatResponse` record above); `sources` and
`context_used` both have exactly one entry per retrieved result, and every
`context_used` entry has at most 203 characters (at most 200 content
characters plus the 3-character ellipsis marker). -/
theorem chat_response_shape (maxSearchResults : Nat) (embed : Except String (List ℚ))
    (query : Nat → List ℚ → Except String (List RawDoc))
    (complete : List Message → Except String String) (question : String) :
    ((chat maxSearchResults embed query complete question).sources.length =
      (search_documents none maxSearchResults embed query).length) ∧
    ((chat maxSearchResults embed query complete question).context_used.length =
      (search_documents none maxSearchResults embed query).length) ∧
    (∀ cu ∈ (chat maxSearchResults embed query complete question).context_used,
      cu.length ≤ 203) := by
  simp only [chat]
  by_cases h : (search_documents none maxSearchResults embed query).isEmpty
  · rw [if_pos h]
    rw [List.isEmpty_iff] at h
    simp [h]
  · rw [if_neg h]
    refine ⟨by simp, by simp, ?_⟩
    intro cu hcu
    simp only [List.mem_map] at hcu
    obtain ⟨d, _, rfl⟩ := hcu
    simp only [List.length_append, List.length_take, ellipsis, List.length_cons,
      List.length_nil]
    omega

/-! ## Chunker theorems -/

theorem chunkLoop_succ (text : List Char) (c o start : Int) (fuel : Nat) :
    chunkLoop text c o start (fuel + 1) =
      if start < (text.length : Int) then
        (chunkLoop text c o (chunkStep text c o start).2 fuel).map
          (fun rest => (chunkStep text c o start).1 :: rest)
      else some [] := rfl

theorem chunkLoop_none_of_fixpoint (text : List Char) (c o : Int)
    (hlt : (0 : Int) < (text.length : Int)) (hfix : (chunkStep text c o 0).2 = 0) :
    ∀ fuel, chunkLoop text c o 0 fuel = none := by
  intro fuel
  induction fuel with
  | zero => rfl
  | succ n ih =>
    simp only [chunkLoop]
    rw [if_pos hlt, hfix, ih]
    rfl

/-- The text of the C3 counterexample: a period at window-relative position
8 of a 10-character window makes the boundary snap pull `end` back to 9, so
with `overlap = 9` the cursor `start = end - overlap` stays at 0 forever. -/
def snapTrapText : List Char := "12345678.0ABCDEF".toList

/-- C3 counterexample: `chunk_text` does NOT terminate for every text and
every `chunk_size ≥ 1`, `0 ≤ overlap < chunk_size`: with `chunk_size = 10`
and `overlap = 9` (which satisfy the claim's hypotheses) the loop diverges
on `snapTrapText`, because the sentence-boundary snap moves `end` back to
`start + 9` and the cursor never advances. -/
theorem chunk_text_nontermination_counterexample :
    (0 : Int) ≤ 9 ∧ (9 : Int) < 10 ∧ chunkTerminates snapTrapText 10 9 = False := by
  refine ⟨by norm_num, by norm_num, eq_false ?_⟩
  rintro ⟨fuel, hs⟩
  rw [chunkLoop_none_of_fixpoint snapTrapText 10 9 (by decide) (by decide) fuel] at hs
  simp at hs

/-- C4: there is no guard at all against a non-advancing cursor, and no
`InvalidConfiguration` error: with `overlap ≥ chunk_size` (here both 1) the
loop simply never terminates, already on the two-character text `"ab"`. -/
theorem chunk_text_diverges_without_guard :
    chunkTerminates ['a', 'b'] 1 1 = False := by
  refine eq_false ?_
  rintro ⟨fuel, hs⟩
  rw [chunkLoop_none_of_fixpoint ['a', 'b'] 1 1 (by decide) (by decide) fuel] at hs
  simp at hs

/-! ### Exact value and error bounds of the binary64 threshold -/

/-- Exact rational value of the binary64 pair `(M, e)`. -/
def f64val (p : Int × Int) : ℚ := (p.1 : ℚ) * 2 ^ p.2

theorem log2Aux_bounds : ∀ (fuel n : Nat), 1 ≤ n → n ≤ fuel →
    2 ^ log2Aux fuel n ≤ n ∧ n < 2 ^ (log2Aux fuel n + 1) := by
  intro fuel
  induction fuel with
  | zero => intro n h1 h2; exact absurd (h1.trans h2) (by norm_num)
  | succ f ih =>
    intro n h1 h2
    by_cases hn : n ≤ 1
    · have he : n = 1 := by omega
      subst he
      norm_num [log2Aux]
    · simp only [log2Aux, if_neg hn]
      obtain ⟨ha, hb⟩ := ih (n / 2) (by omega) (by omega)
      simp only [pow_succ] at hb ⊢
      set X := (2 : ℕ) ^ log2Aux f (n / 2) with hX
      omega

theorem bitLog2_bounds (n : Nat) (h : 1 ≤ n) :
    2 ^ bitLog2 n ≤ n ∧ n < 2 ^ (bitLog2 n + 1) :=
  log2Aux_bounds n n h le_rfl

theorem rne_bounds (P : Int) (s : Nat) :
    2 * P - 2 ^ s ≤ 2 ^ (s + 1) * rne P s ∧ 2 ^ (s + 1) * rne P s ≤ 2 * P + 2 ^ s := by
  have h2 : (0 : Int) < 2 ^ s := by positivity
  have hdm := Int.ediv_add_emod P (2 ^ s)
  have hm1 : 0 ≤ P % 2 ^ s := Int.emod_nonneg P h2.ne'
  have hm2 : P % 2 ^ s < 2 ^ s := Int.emod_lt_of_pos P h2
  simp only [rne, pow_succ]
  set Y := (2 : ℤ) ^ s with hY
  by_cases hc1 : 2 * (P % Y) < Y
  · rw [if_pos hc1]; constructor <;> linarith
  · rw [if_neg hc1]
    by_cases hc2 : Y < 2 * (P % Y)
    · rw [if_pos hc2]; constructor <;> linarith
    · rw [if_neg hc2]
      have htie : 2 * (P % Y) = Y := le_antisymm (not_lt.mp hc2) (not_lt.mp hc1)
      by_cases hq : P / Y % 2 = 0
      · rw [if_pos hq]; constructor <;> linarith
      · rw [if_neg hq]; constructor <;> linarith

theorem fl64mk_val_le (P : Int) (t : Nat) (hP : 1 ≤ P) :
    |f64val (fl64mk P t) * (2 : ℚ) ^ (t : ℤ) - (P : ℚ)| ≤ (P : ℚ) / 2 ^ 53 := by
  have hPn : 1 ≤ P.natAbs := by omega
  obtain ⟨hlow, hhigh⟩ := bitLog2_bounds P.natAbs hPn
  have hPabs : (P.natAbs : ℤ) = P := Int.natAbs_of_nonneg (by omega)
  simp only [fl64mk]
  by_cases hL : bitLog2 P.natAbs ≤ 52
  · rw [if_pos hL]
    simp only [f64val]
    have hcast : ((52 - bitLog2 P.natAbs : ℕ) : ℤ) = 52 - (bitLog2 P.natAbs : ℤ) := by omega
    have hzero : ((P * 2 ^ (52 - bitLog2 P.natAbs) : ℤ) : ℚ) *
        (2 : ℚ) ^ ((bitLog2 P.natAbs : ℤ) - t - 52) * (2 : ℚ) ^ (t : ℤ) = (P : ℚ) := by
      push_cast
      rw [← zpow_natCast (2 : ℚ) (52 - bitLog2 P.natAbs), hcast, mul_assoc, mul_assoc,
        ← zpow_add₀ (by norm_num : (2 : ℚ) ≠ 0), ← zpow_add₀ (by norm_num : (2 : ℚ) ≠ 0)]
      have he : (52 - (bitLog2 P.natAbs : ℤ)) + (((bitLog2 P.natAbs : ℤ) - t - 52) + t)
          = 0 := by ring
      rw [he, zpow_zero, mul_one]
    rw [hzero, sub_self, abs_zero]
    positivity
  · rw [if_neg hL]
    simp only [f64val]
    obtain ⟨hr1, hr2⟩ := rne_bounds P (bitLog2 P.natAbs - 52)
    have hq1 : 2 * (P : ℚ) - 2 ^ (bitLog2 P.natAbs - 52) ≤
        2 ^ (bitLog2 P.natAbs - 52 + 1) * (rne P (bitLog2 P.natAbs - 52) : ℚ) := by
      exact_mod_cast hr1
    have hq2 : 2 ^ (bitLog2 P.natAbs - 52 + 1) * (rne P (bitLog2 P.natAbs - 52) : ℚ) ≤
        2 * (P : ℚ) + 2 ^ (bitLog2 P.natAbs - 52) := by
      exact_mod_cast hr2
    have hval : ((rne P (bitLog2 P.natAbs - 52) : ℤ) : ℚ) *
        (2 : ℚ) ^ ((bitLog2 P.natAbs : ℤ) - t - 52) * (2 : ℚ) ^ (t : ℤ)
        = (rne P (bitLog2 P.natAbs - 52) : ℚ) * (2 : ℚ) ^ (bitLog2 P.natAbs - 52 : ℕ) := by
      rw [mul_assoc, ← zpow_add₀ (by norm_num : (2 : ℚ) ≠ 0)]
      have he : (bitLog2 P.natAbs : ℤ) - t - 52 + t = ((bitLog2 P.natAbs - 52 : ℕ) : ℤ) := by
        omega
      rw [he, zpow_natCast]
    rw [hval]
    have hpowle : (2 : ℚ) ^ (bitLog2 P.natAbs - 52 : ℕ) * 2 ^ 53 ≤ 2 * (P : ℚ) := by
      have hnat : 2 ^ (bitLog2 P.natAbs - 52) * 2 ^ 53 ≤ 2 * P.natAbs := by
        have : (2 : ℕ) ^ (bitLog2 P.natAbs - 52) * 2 ^ 53 = 2 * 2 ^ bitLog2 P.natAbs := by
          rw [← pow_add]
          rw [show bitLog2 P.natAbs - 52 + 53 = bitLog2 P.natAbs + 1 by omega]
          ring
        rw [this]
        omega
      calc (2 : ℚ) ^ (bitLog2 P.natAbs - 52 : ℕ) * 2 ^ 53
          = ((2 ^ (bitLog2 P.natAbs - 52) * 2 ^ 53 : ℕ) : ℚ) := by push_cast; ring
        _ ≤ ((2 * P.natAbs : ℕ) : ℚ) := by exact_mod_cast hnat
        _ = 2 * (P : ℚ) := by
            have hq : ((P.natAbs : ℕ) : ℚ) = (P : ℚ) := by
              rw [Int.cast_natAbs]
              exact_mod_cast congrArg (fun z : ℤ => (z : ℚ))
                (abs_of_nonneg (by omega : (0 : ℤ) ≤ P))
            push_cast
            rw [hq]
    rw [pow_succ] at hq1 hq2
    rw [abs_le]
    constructor
    · nlinarith [hq1, hpowle]
    · nlinarith [hq2, hpowle]

theorem pyMul07_val (c : Int) (hc : 1 ≤ c) (hc53 : c < 2 ^ 53) :
    |f64val (pyMul07 c) * (2 : ℚ) ^ (52 : ℤ) - (c : ℚ) * float07Num| ≤
      (c : ℚ) * float07Num / 2 ^ 53 := by
  have hcn : 1 ≤ c.natAbs := by omega
  obtain ⟨hlow, hhigh⟩ := bitLog2_bounds c.natAbs hcn
  have hcabs : (c.natAbs : ℤ) = c := Int.natAbs_of_nonneg (by omega)
  have hL : bitLog2 c.natAbs ≤ 52 := by
    by_contra hcon
    have h1 : (2 : ℕ) ^ 53 ≤ 2 ^ bitLog2 c.natAbs :=
      Nat.pow_le_pow_right (by norm_num) (by omega)
    have h2 : c.natAbs < 2 ^ 53 := by omega
    omega
  have hfl : fl64mk c 0 = (c * 2 ^ (52 - bitLog2 c.natAbs), (bitLog2 c.natAbs : ℤ) - 0 - 52) := by
    simp only [fl64mk]
    rw [if_pos hL]
    norm_num
  have hP1 : (1 : ℤ) ≤ c * 2 ^ (52 - bitLog2 c.natAbs) * float07Num := by
    have hp : (0 : ℤ) < c * 2 ^ (52 - bitLog2 c.natAbs) * float07Num := by
      unfold float07Num; positivity
    omega
  have hmain : pyMul07 c
      = fl64mk (c * 2 ^ (52 - bitLog2 c.natAbs) * float07Num) (104 - bitLog2 c.natAbs) := by
    simp only [pyMul07, hfl]
    rw [if_pos (by omega : (bitLog2 c.natAbs : ℤ) - 0 - 52 ≤ 52)]
    congr 1
    omega
  have herr := fl64mk_val_le (c * 2 ^ (52 - bitLog2 c.natAbs) * float07Num)
    (104 - bitLog2 c.natAbs) hP1
  rw [← hmain] at herr
  have hk : (0 : ℚ) < (2 : ℚ) ^ (52 - bitLog2 c.natAbs : ℕ) := by positivity
  have hsplit : (2 : ℚ) ^ ((104 - bitLog2 c.natAbs : ℕ) : ℤ)
      = (2 : ℚ) ^ (52 : ℤ) * (2 : ℚ) ^ (52 - bitLog2 c.natAbs : ℕ) := by
    rw [← zpow_natCast (2 : ℚ) (52 - bitLog2 c.natAbs),
      ← zpow_add₀ (by norm_num : (2 : ℚ) ≠ 0)]
    congr 1
    omega
  have hPcast : ((c * 2 ^ (52 - bitLog2 c.natAbs) * float07Num : ℤ) : ℚ)
      = (c : ℚ) * float07Num * (2 : ℚ) ^ (52 - bitLog2 c.natAbs : ℕ) := by
    push_cast
    ring
  rw [hsplit, hPcast] at herr
  have hfactor : f64val (pyMul07 c) * ((2 : ℚ) ^ (52 : ℤ) * (2 : ℚ) ^ (52 - bitLog2 c.natAbs : ℕ))
      - (c : ℚ) * float07Num * (2 : ℚ) ^ (52 - bitLog2 c.natAbs : ℕ)
      = (f64val (pyMul07 c) * (2 : ℚ) ^ (52 : ℤ) - (c : ℚ) * float07Num)
        * (2 : ℚ) ^ (52 - bitLog2 c.natAbs : ℕ) := by ring
  rw [hfactor, abs_mul, abs_of_pos hk] at herr
  have hdiv : (c : ℚ) * float07Num * (2 : ℚ) ^ (52 - bitLog2 c.natAbs : ℕ) / 2 ^ 53
      = ((c : ℚ) * float07Num / 2 ^ 53) * (2 : ℚ) ^ (52 - bitLog2 c.natAbs : ℕ) := by ring
  rw [hdiv] at herr
  exact le_of_mul_le_mul_right herr hk

theorem pyMul07_bounds (c : Int) (hc : 1 ≤ c) (hc2 : c ≤ 2 ^ 50) :
    (7 * c : ℚ) / 10 - 11 / 80 ≤ f64val (pyMul07 c) ∧
    f64val (pyMul07 c) ≤ (7 * c : ℚ) / 10 + 3 / 80 := by
  have hc53 : c < 2 ^ 53 := by
    have : (2 : ℤ) ^ 50 < 2 ^ 53 := by norm_num
    omega
  have h := pyMul07_val c hc hc53
  rw [abs_le] at h
  obtain ⟨h1, h2⟩ := h
  have hcq : (1 : ℚ) ≤ (c : ℚ) := by exact_mod_cast hc
  have hc2q : (c : ℚ) ≤ 2 ^ 50 := by exact_mod_cast hc2
  unfold float07Num at h1 h2
  push_cast at h1 h2
  norm_num at h1 h2 hc2q
  constructor
  · nlinarith [h1]
  · nlinarith [h2]

theorem intGtF64_eq_true_iff (lp : Int) (p : Int × Int) :
    intGtF64 lp p = true ↔ f64val p < (lp : ℚ) := by
  unfold intGtF64 f64val
  by_cases he : 0 ≤ p.2
  · rw [if_pos he]
    simp only [decide_eq_true_eq]
    rw [show p.2 = ((p.2.toNat : ℕ) : ℤ) from (Int.toNat_of_nonneg he).symm, zpow_natCast]
    constructor <;> intro h <;> exact_mod_cast h
  · rw [if_neg he]
    simp only [decide_eq_true_eq]
    set n := (- p.2).toNat with hndef
    have hn : (n : ℤ) = - p.2 := Int.toNat_of_nonneg (by omega)
    have hpos : (0 : ℚ) < (2 : ℚ) ^ n := by positivity
    have hz : (2 : ℚ) ^ p.2 = ((2 : ℚ) ^ n)⁻¹ := by
      rw [show p.2 = -(n : ℤ) by omega, zpow_neg, zpow_natCast]
    rw [hz, ← div_eq_mul_inv, div_lt_iff₀ hpos]
    constructor <;> intro h <;> exact_mod_cast h

theorem pyGtMul07_of_exact (c lp : Int) (hc : 1 ≤ c) (hc2 : c ≤ 2 ^ 50)
    (h : 10 * lp > 7 * c) : pyGtMul07 lp c = true := by
  unfold pyGtMul07
  rw [if_neg (by omega : ¬ c = 0), if_neg (by omega : ¬ c < 0), intGtF64_eq_true_iff]
  have hub := (pyMul07_bounds c hc hc2).2
  have hlp : (7 * c + 1 : ℚ) / 10 ≤ (lp : ℚ) := by
    rw [div_le_iff₀ (by norm_num : (0 : ℚ) < 10)]
    exact_mod_cast by omega
  linarith

theorem ediv_le_of_pyGtMul07 (c lp : Int) (hc : 1 ≤ c) (hc2 : c ≤ 2 ^ 50)
    (h : pyGtMul07 lp c = true) : 7 * c / 10 ≤ lp := by
  unfold pyGtMul07 at h
  rw [if_neg (by omega : ¬ c = 0), if_neg (by omega : ¬ c < 0),
    intGtF64_eq_true_iff] at h
  have hlb := (pyMul07_bounds c hc hc2).1
  have hq : (56 * c - 11 : ℚ) < 80 * lp := by linarith
  have hz : (56 * c - 11 : ℤ) < 80 * lp := by exact_mod_cast hq
  omega

/-! ### Termination of the chunker under the faithful threshold -/

/-- Minimum cursor advance of one loop iteration: a raw window advances the
cursor by `chunk_size - overlap`, a snapped window by at least
`7 * chunk_size / 10 + 1 - overlap` (the binary64 threshold can fall
marginally below the exact `0.7 * chunk_size`, e.g. `90 * 0.7 < 63`, so a
snap can already happen at the period position `⌊0.7 * chunk_size⌋`). -/
def minAdvance (c o : Int) : Int := min (c - o) (7 * c / 10 + 1 - o)

/-- Fuel for `ceil(length / minAdvance)` loop iterations plus the final
failed `while` test. -/
def chunkIterBound (text : List Char) (c o : Int) : Nat :=
  (((text.length : Int) + minAdvance c o - 1) / minAdvance c o).toNat + 1

theorem le_windowEnd (text : List Char) (c start : Int) (hc : 1 ≤ c) (hc2 : c ≤ 2 ^ 50) :
    start + min c (7 * c / 10 + 1) ≤ windowEnd text c start := by
  have h1 := min_le_left c (7 * c / 10 + 1)
  have h2 := min_le_right c (7 * c / 10 + 1)
  simp only [windowEnd]
  by_cases hb : start + c < (text.length : Int)
  · rw [if_pos hb]
    by_cases hs : pyGtMul07 (pyRfind (pySlice text start (start + c)) '.') c = true
    · rw [if_pos hs]
      have := ediv_le_of_pyGtMul07 c (pyRfind (pySlice text start (start + c)) '.') hc hc2 hs
      omega
    · rw [if_neg hs]; omega
  · rw [if_neg hb]; omega

theorem chunkStep_advance (text : List Char) (c o start : Int)
    (hc : 1 ≤ c) (hc2 : c ≤ 2 ^ 50) :
    start + minAdvance c o ≤ (chunkStep text c o start).2 := by
  have h := le_windowEnd text c start hc hc2
  have h2 : (chunkStep text c o start).2 = windowEnd text c start - o := rfl
  rw [h2]
  unfold minAdvance
  omega

theorem chunkLoop_isSome_of_fuel (text : List Char) (c o : Int) (hc : 1 ≤ c) (ho : 0 ≤ o)
    (hoc : 10 * o ≤ 7 * c) (hc2 : c ≤ 2 ^ 50) :
    ∀ (k : Nat) (start : Int), (text.length : Int) - start ≤ k * minAdvance c o →
      (chunkLoop text c o start (k + 1)).isSome := by
  intro k
  induction k with
  | zero =>
    intro start h
    have hns : ¬ start < (text.length : Int) := by simp at h; omega
    simp [chunkLoop, hns]
  | succ n ih =>
    intro start h
    by_cases hlt : start < (text.length : Int)
    · have hadv := chunkStep_advance text c o start hc hc2
      rw [chunkLoop_succ, if_pos hlt, Option.isSome_map']
      apply ih
      have hcast : ((n + 1 : Nat) : Int) * minAdvance c o
          = (n : Int) * minAdvance c o + minAdvance c o := by push_cast; ring
      rw [hcast] at h
      linarith
    · simp [chunkLoop, hlt]

/-- C3 (amended): for every text and `chunk_size ≥ 1`, `0 ≤ overlap` with
`10 * overlap ≤ 7 * chunk_size` and `chunk_size ≤ 2^50`, `chunk_text`
terminates within `ceil(length / minAdvance)` loop iterations, where
`minAdvance = min (chunk_size - overlap) (7 * chunk_size / 10 + 1 - overlap)`
is the least possible cursor advance under the binary64 snap threshold
(boundary snapping can advance the cursor by less than
`chunk_size - overlap`, and already at a period sitting exactly at
`⌊0.7 * chunk_size⌋` when the float product rounds down, as for
`chunk_size = 90`; neither the claimed iteration bound
`ceil(L / (chunk_size - overlap))` nor termination itself survives for all
`overlap < chunk_size`, see the counterexample). -/
theorem chunk_text_terminates_amended (text : List Char) (c o : Int)
    (hc : 1 ≤ c) (ho : 0 ≤ o) (hoc : 10 * o ≤ 7 * c) (hc2 : c ≤ 2 ^ 50) :
    ∃ chunks, chunk_text (chunkIterBound text c o) text c o = some chunks := by
  have hd : 1 ≤ minAdvance c o := by unfold minAdvance; omega
  have hL : (0 : Int) ≤ (text.length : Int) := Int.natCast_nonneg _
  have h0 : 0 ≤ ((text.length : Int) + minAdvance c o - 1) / minAdvance c o :=
    Int.ediv_nonneg (by omega) (by omega)
  have hk : (text.length : Int) - 0 ≤
      (((((text.length : Int) + minAdvance c o - 1) / minAdvance c o).toNat : Int))
        * minAdvance c o := by
    rw [Int.toNat_of_nonneg h0, mul_comm]
    have hdm := Int.ediv_add_emod ((text.length : Int) + minAdvance c o - 1) (minAdvance c o)
    have hm1 : 0 ≤ ((text.length : Int) + minAdvance c o - 1) % minAdvance c o :=
      Int.emod_nonneg _ (by omega)
    have hm2 : ((text.length : Int) + minAdvance c o - 1) % minAdvance c o < minAdvance c o :=
      Int.emod_lt_of_pos _ (by omega)
    linarith
  have hsome := chunkLoop_isSome_of_fuel text c o hc ho hoc hc2
    ((((text.length : Int) + minAdvance c o - 1) / minAdvance c o).toNat) 0 hk
  obtain ⟨v, hv⟩ := Option.isSome_iff_exists.mp hsome
  exact ⟨v.map (fun t => t.2.2), by unfold chunk_text chunkIterBound; rw [hv]; rfl⟩

/-- Witness for the amended C3 at a concrete input. -/
theorem chunk_text_terminates_amended_witness :
    ∃ chunks, chunk_text (chunkIterBound "abcdef".toList 3 1) "abcdef".toList 3 1
      = some chunks :=
  chunk_text_terminates_amended "abcdef".toList 3 1 (by norm_num) (by norm_num)
    (by norm_num) (by norm_num)

theorem pyRfind_eq_of (s : List Char) (ch : Char) (q : Nat)
    (h1 : s[q]? = some ch) (h2 : ∀ r : Nat, q < r → s[r]? ≠ some ch) :
    pyRfind s ch = (q : Int) := by
  have hge := pyRfind_ge_of_getElem? s ch q h1
  have h0 : 0 ≤ pyRfind s ch := le_trans (Int.natCast_nonneg q) hge
  have hval := pyRfind_getElem? s ch h0
  by_contra hne
  exact h2 (pyRfind s ch).toNat (by omega) hval

/-- Chunk size of the C8 counterexample: at this value the binary64 product
`chunk_size * 0.7` rounds UP to the integer `⌊0.7 * chunk_size⌋ + 1`. -/
def hugeC : Int := 6433713753386427

/-- Window-relative position of the single period of the C8 counterexample:
`hugeQ = ⌊0.7 * hugeC⌋ + 1`, so `10 * hugeQ = 7 * hugeC + 1 > 7 * hugeC`,
yet `hugeQ` equals the rounded binary64 threshold exactly, so the Python
test `hugeQ > hugeC * 0.7` is false. -/
def hugeQ : Nat := 4503599627370499

/-- Text of the C8 counterexample: `hugeQ` letters, one period, then enough
letters to put the raw window end strictly inside the text. -/
def hugeText : List Char :=
  List.replicate hugeQ 'a' ++ '.' :: List.replicate 1930114126015928 'b'

/-- The raw window of the C8 counterexample: the first `hugeC` characters of
`hugeText`. -/
def hugeWindow : List Char :=
  List.replicate hugeQ 'a' ++ '.' :: List.replicate 1930114126015927 'b'

theorem hugeText_length : hugeText.length = 6433713753386428 := by
  rw [hugeText, List.length_append, List.length_replicate, List.length_cons,
    List.length_replicate, hugeQ]

theorem hugeWindow_eq : pySlice hugeText 0 (0 + hugeC) = hugeWindow := by
  have h1 : pySliceIdx 6433713753386428 (0 + hugeC) = 6433713753386427 := by decide
  have h2 : pySliceIdx 6433713753386428 0 = 0 := by decide
  simp only [pySlice]
  rw [hugeText_length, h1, h2, List.drop_zero]
  rw [hugeText, hugeWindow]
  rw [List.take_append_eq_append_take, List.length_replicate]
  rw [List.take_of_length_le
    (by rw [List.length_replicate]; exact by decide :
      (List.replicate hugeQ 'a').length ≤ 6433713753386427)]
  rw [show (6433713753386427 - hugeQ : ℕ) = 1930114126015927 + 1 from rfl]
  rw [List.take_succ_cons, List.take_replicate]
  rw [show min 1930114126015927 1930114126015928 = 1930114126015927 from rfl]

theorem hugeWindow_getElem : hugeWindow[hugeQ]? = some '.' := by
  rw [hugeWindow]
  rw [List.getElem?_append_right (le_of_eq (List.length_replicate _ _)),
    List.length_replicate, Nat.sub_self, List.getElem?_cons_zero]

theorem hugeWindow_no_period_after (r : Nat) (hr : hugeQ < r) :
    hugeWindow[r]? ≠ some '.' := by
  intro hcon
  rw [hugeWindow] at hcon
  rw [List.getElem?_append_right (by rw [List.length_replicate]; omega)] at hcon
  rw [List.length_replicate] at hcon
  obtain ⟨k, hk⟩ : ∃ k, r - hugeQ = k + 1 := ⟨r - hugeQ - 1, by omega⟩
  rw [hk, List.getElem?_cons_succ] at hcon
  have hmem := List.getElem?_mem hcon
  have hbe := List.eq_of_mem_replicate hmem
  exact absurd hbe (by decide)

/-- C8 counterexample: at `chunk_size = 6433713753386427` (about `2^52.5`)
the binary64 threshold `chunk_size * 0.7` rounds UP to exactly
`⌊0.7 * chunk_size⌋ + 1 = 4503599627370499`.  A window ending strictly
inside the text whose last period sits at exactly that position — strictly
beyond the exact `0.7 * chunk_size`, since `10 * 4503599627370499 =
7 * chunk_size + 1` — fails the Python snap test `last_period >
chunk_size * 0.7`, so the span ends at the raw window boundary
`start + chunk_size`, not just after the period as the claim requires
(the only `q` with `windowEnd = start + q + 1` would be `chunk_size - 1`,
and that position holds `'b'`, not a period). -/
theorem windowEnd_misses_period_counterexample :
    (0 : Int) < hugeC ∧
    0 + hugeC < (hugeText.length : Int) ∧
    (pySlice hugeText 0 (0 + hugeC))[hugeQ]? = some '.' ∧
    10 * (hugeQ : Int) > 7 * hugeC ∧
    pyRfind (pySlice hugeText 0 (0 + hugeC)) '.' = (hugeQ : Int) ∧
    windowEnd hugeText hugeC 0 = 0 + hugeC ∧
    0 + hugeC ≠ 0 + (hugeQ : Int) + 1 := by
  have hw := hugeWindow_eq
  have hq := hugeWindow_getElem
  have hrf : pyRfind hugeWindow '.' = (hugeQ : Int) :=
    pyRfind_eq_of hugeWindow '.' hugeQ hq hugeWindow_no_period_after
  have hin : 0 + hugeC < (hugeText.length : Int) := by
    rw [hugeText_length]
    norm_num [hugeC]
  refine ⟨by norm_num [hugeC], hin, ?_, ?_, ?_, ?_, ?_⟩
  · rw [hw]; exact hq
  · norm_num [hugeQ, hugeC]
  · rw [hw]; exact hrf
  · have hdec : pyGtMul07 (hugeQ : Int) hugeC = false := by decide
    simp only [windowEnd]
    rw [if_pos hin, hw, hrf, if_neg (by rw [hdec]; simp)]
  · norm_num [hugeC, hugeQ]

theorem chunkLoop_first (text : List Char) (c o start : Int) (fuel : Nat)
    (x : Int × Int × List Char) (rest : List (Int × Int × List Char))
    (h : chunkLoop text c o start fuel = some (x :: rest)) : x.1 = start := by
  cases fuel with
  | zero => simp [chunkLoop] at h
  | succ n =>
    rw [chunkLoop_succ] at h
    by_cases hlt : start < (text.length : Int)
    · rw [if_pos hlt] at h
      cases hrec : chunkLoop text c o (chunkStep text c o start).2 n with
      | none => rw [hrec] at h; simp at h
      | some r =>
        rw [hrec] at h
        simp only [Option.map_some', Option.some.injEq, List.cons.injEq] at h
        rw [← h.1]
        rfl
    · rw [if_neg hlt] at h
      simp at h

theorem chunkLoop_covers (text : List Char) (c o : Int) (ho : 0 ≤ o) :
    ∀ (fuel : Nat) (start : Int) (res : List (Int × Int × List Char)),
      chunkLoop text c o start fuel = some res →
      (∀ pos : Int, start ≤ pos → pos < (text.length : Int) →
        ∃ t ∈ res, t.1 ≤ pos ∧ pos < t.2.1) ∧
      List.Chain' (fun a b => b.1 ≤ a.2.1) res := by
  intro fuel
  induction fuel with
  | zero => intro start res h; simp [chunkLoop] at h
  | succ n ih =>
    intro start res h
    rw [chunkLoop_succ] at h
    by_cases hlt : start < (text.length : Int)
    · rw [if_pos hlt] at h
      cases hrec : chunkLoop text c o (chunkStep text c o start).2 n with
      | none => rw [hrec] at h; simp at h
      | some r =>
        rw [hrec] at h
        simp only [Option.map_some', Option.some.injEq] at h
        subst h
        obtain ⟨hcov, hchain⟩ := ih (chunkStep text c o start).2 r hrec
        have hnext : (chunkStep text c o start).2 = (chunkStep text c o start).1.2.1 - o := rfl
        constructor
        · intro pos h1 h2
          by_cases hp : pos < (chunkStep text c o start).1.2.1
          · refine ⟨(chunkStep text c o start).1, List.mem_cons_self _ _, ?_, hp⟩
            show start ≤ pos
            exact h1
          · push_neg at hp
            obtain ⟨t, ht, hcond⟩ := hcov pos (by omega) h2
            exact ⟨t, List.mem_cons_of_mem _ ht, hcond⟩
        · cases r with
          | nil => simp
          | cons y ys =>
            refine List.Chain'.cons ?_ hchain
            have hy : y.1 = (chunkStep text c o start).2 :=
              chunkLoop_first text c o _ n y ys hrec
            omega
    · rw [if_neg hlt] at h
      simp only [Option.some.injEq] at h
      subst h
      exact ⟨fun pos h1 h2 => absurd (lt_of_le_of_lt h1 h2) hlt, by simp⟩

/-- C7: whenever the chunking loop finishes (with `0 ≤ overlap <
chunk_size`), the untrimmed `[start, end)` spans it chose leave no gap: each
span starts no later than the previous span's end (the next cursor is
`end - overlap`), and every character position of the text lies inside some
span.  (Chunk contents differ from the spans only by the final
`chunk.strip()`.) -/
theorem chunk_spans_cover (fuel : Nat) (text : List Char) (c o : Int)
    (spans : List (Int × Int)) (ho : 0 ≤ o) (hoc : o < c)
    (h : chunkSpans fuel text c o = some spans) :
    List.Chain' (fun a b => b.1 ≤ a.2) spans ∧
    ∀ pos : Int, 0 ≤ pos → pos < (text.length : Int) →
      ∃ sp ∈ spans, sp.1 ≤ pos ∧ pos < sp.2 := by
  unfold chunkSpans at h
  cases hrec : chunkLoop text c o 0 fuel with
  | none => rw [hrec] at h; simp at h
  | some res =>
    rw [hrec] at h
    simp only [Option.map_some', Option.some.injEq] at h
    subst h
    obtain ⟨hcov, hchain⟩ := chunkLoop_covers text c o ho fuel 0 res hrec
    constructor
    · rw [List.chain'_map]
      exact hchain
    · intro pos h0 hL
      obtain ⟨t, ht, hc1, hc2⟩ := hcov pos h0 hL
      exact ⟨(t.1, t.2.1), List.mem_map_of_mem _ ht, hc1, hc2⟩

/-- Witness for C7: a concrete terminating run and its covering spans,
with the coverage conjunct instantiated at position 4. -/
theorem chunk_spans_cover_witness :
    List.Chain' (fun a b => b.1 ≤ a.2) [((0 : Int), (3 : Int)), (2, 5), (4, 7)] ∧
    ∃ sp ∈ [((0 : Int), (3 : Int)), (2, 5), (4, 7)], sp.1 ≤ 4 ∧ (4 : Int) < sp.2 :=
  ⟨(chunk_spans_cover 4 "ab.cd".toList 3 1 [(0, 3), (2, 5), (4, 7)]
      (by norm_num) (by norm_num) (by decide)).1,
   (chunk_spans_cover 4 "ab.cd".toList 3 1 [(0, 3), (2, 5), (4, 7)]
      (by norm_num) (by norm_num) (by decide)).2 4 (by norm_num) (by decide)⟩

/-- C8 (amended): if `chunk_size ≤ 2^50`, the raw window
`[start, start + chunk_size)` ends strictly inside the text, and some period
of the window sits beyond `0.7 * chunk_size`, then the chosen span end is
`start + q + 1` where `q` is the last period position of the window (which
itself lies beyond `0.7 * chunk_size`), not the raw boundary
`start + chunk_size`.  The bound on `chunk_size` is needed: once the ulp of
the binary64 product `chunk_size * 0.7` reaches the integers, the rounded
threshold can exceed the exact `0.7 * chunk_size` and the program misses the
snap (see the counterexample below). -/
theorem windowEnd_snaps_to_last_period (text : List Char) (c start : Int) (hc : 0 < c)
    (hc2 : c ≤ 2 ^ 50)
    (hin : start + c < (text.length : Int)) (p : Nat)
    (hp : (pySlice text start (start + c))[p]? = some '.')
    (hbeyond : 10 * (p : Int) > 7 * c) :
    ∃ q : Nat,
      (pySlice text start (start + c))[q]? = some '.' ∧
      10 * (q : Int) > 7 * c ∧
      (∀ r : Nat, q < r → (pySlice text start (start + c))[r]? ≠ some '.') ∧
      windowEnd text c start = start + q + 1 := by
  have hge := pyRfind_ge_of_getElem? (pySlice text start (start + c)) '.' p hp
  have h0 : 0 ≤ pyRfind (pySlice text start (start + c)) '.' :=
    le_trans (Int.natCast_nonneg p) hge
  have hcast : ((pyRfind (pySlice text start (start + c)) '.').toNat : Int)
      = pyRfind (pySlice text start (start + c)) '.' := Int.toNat_of_nonneg h0
  have hsnap : pyGtMul07 (pyRfind (pySlice text start (start + c)) '.') c = true :=
    pyGtMul07_of_exact c (pyRfind (pySlice text start (start + c)) '.')
      (by omega) hc2 (by omega)
  refine ⟨(pyRfind (pySlice text start (start + c)) '.').toNat,
    pyRfind_getElem? _ '.' h0, by omega, ?_, ?_⟩
  · intro r hr
    apply pyRfind_maximal
    omega
  · simp only [windowEnd]
    rw [if_pos hin, if_pos hsnap]
    omega

/-- Witness for the amended C8: window `"01234567.9"` (chunk_size 10)
inside a longer text, period at window position 8 and none later, snapped
end `0 + 8 + 1`. -/
theorem windowEnd_snaps_to_last_period_witness :
    ∃ q : Nat,
      (pySlice "01234567.9ABCDEF".toList 0 (0 + 10))[q]? = some '.' ∧
      10 * (q : Int) > 7 * 10 ∧
      (∀ r : Nat, q < r →
        (pySlice "01234567.9ABCDEF".toList 0 (0 + 10))[r]? ≠ some '.') ∧
      windowEnd "01234567.9ABCDEF".toList 10 0 = 0 + q + 1 :=
  windowEnd_snaps_to_last_period "01234567.9ABCDEF".toList 10 0 (by norm_num)
    (by norm_num) (by decide) 8 (by decide) (by norm_num)

/-! ## Indexing pipeline theorems -/

/-- The id sequence `doc_{d0}, doc_{d0+1}, …` of length `n`. -/
def idsFrom : Nat → Nat → List String
  | _, 0 => []
  | d0, n + 1 => mkDocId d0 :: idsFrom (d0 + 1) n

/-- Whether an embedding call succeeded. -/
def embedOk (e : Except String (List ℚ)) : Bool :=
  match e with
  | .ok _ => true
  | .error _ => false

theorem idsFrom_append : ∀ (n1 d0 n2 : Nat),
    idsFrom d0 n1 ++ idsFrom (d0 + n1) n2 = idsFrom d0 (n1 + n2) := by
  intro n1
  induction n1 with
  | zero => intro d0 n2; simp [idsFrom]
  | succ m ihm =>
    intro d0 n2
    have h1 : d0 + (m + 1) = (d0 + 1) + m := by omega
    have h2 : m + 1 + n2 = (m + n2) + 1 := by omega
    rw [h1, h2]
    simp only [idsFrom, List.cons_append]
    rw [ihm]

theorem processChunks_spec (em : List Char → Except String (List ℚ)) (t s : String) :
    ∀ (chunks : List (List Char)) (d0 k0 : Nat),
      ((processChunks em t s d0 k0 chunks).1.map (fun d => d.id)
        = idsFrom d0 (processChunks em t s d0 k0 chunks).1.length)
      ∧ (processChunks em t s d0 k0 chunks).2
        = d0 + (processChunks em t s d0 k0 chunks).1.length := by
  intro chunks
  induction chunks with
  | nil => intro d0 k0; simp [processChunks, idsFrom]
  | cons ch rest ih =>
    intro d0 k0
    cases hem : em ch with
    | ok vec =>
      obtain ⟨ih1, ih2⟩ := ih (d0 + 1) (k0 + 1)
      simp only [processChunks, hem, List.map_cons, List.length_cons]
      refine ⟨?_, by omega⟩
      simp only [idsFrom, ih1]
    | error e =>
      simpa only [processChunks, hem] using ih d0 (k0 + 1)

theorem processFiles_ids (cf : List Char → List (List Char))
    (em : List Char → Except String (List ℚ)) :
    ∀ (files : List FileInput) (d0 : Nat),
      (processFiles cf em d0 files).map (fun d => d.id)
        = idsFrom d0 (processFiles cf em d0 files).length := by
  intro files
  induction files with
  | nil => intro d0; simp [processFiles, idsFrom]
  | cons f rest ih =>
    intro d0
    by_cases hf : f.content.isEmpty
    · simp only [processFiles, if_pos hf]
      exact ih d0
    · simp only [processFiles, if_neg hf]
      obtain ⟨h1, h2⟩ := processChunks_spec em f.title f.source (cf f.content) d0 0
      rw [List.map_append, h1, ih _, h2, List.length_append]
      exact idsFrom_append _ d0 _

theorem processChunks_chunk_ids (em : List Char → Except String (List ℚ)) (t s : String) :
    ∀ (chunks : List (List Char)) (d0 k0 : Nat),
      (processChunks em t s d0 k0 chunks).1.map (fun d => (d.chunk_id, d.content))
        = (chunks.enumFrom k0).filter (fun p => embedOk (em p.2)) := by
  intro chunks
  induction chunks with
  | nil => intro d0 k0; simp [processChunks, List.enumFrom]
  | cons ch rest ih =>
    intro d0 k0
    cases hem : em ch with
    | ok vec =>
      simp only [processChunks, hem, List.enumFrom, List.map_cons, List.filter_cons,
        embedOk, ih (d0 + 1) (k0 + 1)]
      simp
    | error e =>
      simp only [processChunks, hem, List.enumFrom, List.filter_cons, embedOk,
        ih d0 (k0 + 1)]
      simp

/-- Chunker of the C9 counterexample: every file yields chunks
`["a", "b", "c"]`. -/
def exChunker : List Char → List (List Char) := fun _ => [['a'], ['b'], ['c']]

/-- Embedding oracle of the C9 counterexample: the call fails exactly on the
middle chunk `"b"`. -/
def exEmbed : List Char → Except String (List ℚ) :=
  fun ch => if ch = ['b'] then Except.error "embed failure" else Except.ok []

/-- Input of the C9 counterexample: one readable file. -/
def exFiles : List FileInput := [⟨"guide", "docs/guide.txt", ['x']⟩]

/-- C9 counterexample: when the middle chunk's embedding call fails, the
single source file emits documents with chunk_ids `[0, 2]` — the per-source
chunk_id sequence is NOT contiguous starting at 0, contrary to the claim
(which requires contiguity in particular when a chunk is skipped).  The
global ids are still `doc_0, doc_1`. -/
theorem process_documents_chunk_id_gap :
    (process_documents exChunker exEmbed exFiles).map (fun d => (d.id, d.chunk_id))
      = [("doc_0", 0), ("doc_1", 2)] := by decide

/-- C9 (amended): the global ids of a run are exactly `doc_0, doc_1, …` in
emission order (the counter advances only on success, so ids stay gapless
and strictly increasing even when chunks are skipped); within one file the
inner loop (entered with `chunk_id = 0`, last conjunct) emits one document
per chunk whose embedding call succeeds, carrying that chunk's zero-based
position within its own source file as `chunk_id` — so per-source chunk_ids
are strictly increasing from 0 and contiguous exactly when no embedding
call fails, but a skipped chunk leaves a gap. -/
theorem process_documents_ids_and_chunk_ids
    (cf : List Char → List (List Char)) (em : List Char → Except String (List ℚ))
    (files : List FileInput) (t s : String) (chunks : List (List Char))
    (d0 : Nat) (f : FileInput) (rest : List FileInput) (hf : f.content ≠ []) :
    ((process_documents cf em files).map (fun d => d.id)
        = idsFrom 0 (process_documents cf em files).length)
    ∧ ((processChunks em t s d0 0 chunks).1.map (fun d => (d.chunk_id, d.content))
        = (chunks.enumFrom 0).filter (fun p => embedOk (em p.2)))
    ∧ (processFiles cf em d0 (f :: rest)
        = (processChunks em f.title f.source d0 0 (cf f.content)).1 ++
            processFiles cf em
              (processChunks em f.title f.source d0 0 (cf f.content)).2 rest) := by
  refine ⟨processFiles_ids cf em files 0, processChunks_chunk_ids em t s chunks d0 0, ?_⟩
  simp only [processFiles]
  rw [if_neg (by simpa [List.isEmpty_iff] using hf)]

/-- Witness for the amended C9: two three-chunk files with all embedding
calls succeeding. -/
theorem process_documents_ids_and_chunk_ids_witness :
    ((process_documents exChunker (fun _ => Except.ok [])
        [⟨"a", "pa", ['x']⟩, ⟨"b", "pb", ['y']⟩]).map (fun d => d.id)
      = idsFrom 0 (process_documents exChunker (fun _ => Except.ok [])
        [⟨"a", "pa", ['x']⟩, ⟨"b", "pb", ['y']⟩]).length)
    ∧ ((processChunks (fun _ => Except.ok []) "a" "pa" 0 0
          (exChunker ['x'])).1.map (fun d => (d.chunk_id, d.content))
        = ((exChunker ['x']).enumFrom 0).filter
            (fun p => embedOk ((fun _ => Except.ok []) p.2)))
    ∧ (processFiles exChunker (fun _ => Except.ok []) 0
          (⟨"a", "pa", ['x']⟩ :: [⟨"b", "pb", ['y']⟩])
        = (processChunks (fun _ => Except.ok []) "a" "pa" 0 0 (exChunker ['x'])).1 ++
            processFiles exChunker (fun _ => Except.ok [])
              (processChunks (fun _ => Except.ok []) "a" "pa" 0 0 (exChunker ['x'])).2
              [⟨"b", "pb", ['y']⟩]) :=
  process_documents_ids_and_chunk_ids exChunker (fun _ => Except.ok [])
    [⟨"a", "pa", ['x']⟩, ⟨"b", "pb", ['y']⟩] "a" "pa" (exChunker ['x']) 0
    ⟨"a", "pa", ['x']⟩ [⟨"b", "pb", ['y']⟩] (by decide)

end RAG
